import Mathlib

/-!
Verification of the Farseer session bridge and credential-protection subsystem.

This file gives a shallow embedding of the Go sources:

* the credential vault (`EncryptCredential` / `DecryptCredential`,
  backend service file for crypto);
* the SSH connector (`ConnectSSH` and its host-key callback,
  `backend/services/ssh.go`);
* the SFTP directory listing (`ListDirectory`, `backend/services/sftp.go`);
* the WebSocket session bridge (`SSHWebSocket`, backend handler).

Modelling conventions:

* Byte strings are `List Nat`.
* The cryptographic primitives (PBKDF2, AES-256-GCM) are modelled
  symbolically by injective executable encodings: a derived key is an
  injective pairing of the password material and the salt, and a GCM
  envelope is the plaintext followed by an authentication tag that is an
  injective encoding of (key, nonce, plaintext).  `gcmOpen` recomputes and
  checks the tag, exactly as an ideal AEAD does.  This captures the
  functional contract of the real primitives (determinism, round-trip,
  tag-check failure on any single modified component) without bit-level
  AES.
* Go's `json.Marshal`/`json.Unmarshal` of the two fixed structs are
  modelled by injective length-prefixed encodings with executable inverses.
* Randomness (`salt`, `nonce`) is passed explicitly: the Go code samples
  16 salt bytes and `gcm.NonceSize() = 12` nonce bytes per call.
* Stateful handler code is modelled as a function from the client's
  message script and an environment (database / network outcomes) to the
  ordered trace of externally visible events plus a final state.
-/

namespace Farseer

/-! ### Symbolic byte-string and primitive encodings -/

/-- Injective encoding of a byte string into a single `Nat`
(used only to build symbolic MAC tags and derived keys). -/
def encList : List Nat → Nat
  | [] => 0
  | a :: l => Nat.pair a (encList l) + 1

/-- Bytes of a Go string (modelled at codepoint granularity). -/
def strBytes (s : String) : List Nat := s.toList.map Char.toNat

/-- Inverse of `strBytes` on well-formed byte lists. -/
def bytesStr (l : List Nat) : String := String.mk (l.map Char.ofNat)

/-- `pbkdf2.Key(password, salt, 100000, 32, sha256.New)`, modelled as an
injective symbolic key-derivation function of (password bytes, salt). -/
def pbkdf2Key (passwordBytes salt : List Nat) : Nat :=
  Nat.pair (encList passwordBytes) (encList salt)

/-- `deriveKey` from the credential service: the user password is
concatenated with the server secret before key derivation. -/
def deriveKey (serverSecret password : String) (salt : List Nat) : Nat :=
  pbkdf2Key (strBytes (password ++ serverSecret)) salt

/-- `gcm.NonceSize()` for AES-GCM. -/
def gcmNonceSize : Nat := 12

/-- Symbolic GCM authentication tag: an injective encoding of
(key, nonce, plaintext). -/
def gcmTag (key : Nat) (nonce pt : List Nat) : Nat :=
  Nat.pair key (Nat.pair (encList nonce) (encList pt))

/-- `gcm.Seal(nil, nonce, plaintext, nil)`: ciphertext with the
authentication tag appended (Go appends the 16-byte tag; here it is one
symbolic element). -/
def gcmSeal (key : Nat) (nonce pt : List Nat) : List Nat :=
  pt ++ [gcmTag key nonce pt]

/-- `gcm.Open(nil, nonce, ciphertext, nil)`: split off the tag, recompute
and compare; `none` models the authentication error. -/
def gcmOpen (key : Nat) (nonce ct : List Nat) : Option (List Nat) :=
  match ct.getLast? with
  | none => none
  | some tag => if gcmTag key nonce ct.dropLast = tag then some ct.dropLast else none

/-! ### JSON marshalling of the two credential-service structs -/

/-- `CredentialData` from the credential service. -/
structure CredentialData where
  Password : String
  PrivateKey : String
  Passphrase : String
deriving DecidableEq

/-- `EncryptedData` from the credential service. -/
structure EncryptedData where
  Salt : List Nat
  Nonce : List Nat
  Ciphertext : List Nat
deriving DecidableEq

/-- One length-prefixed segment of a marshalled struct. -/
def encSeg (xs : List Nat) : List Nat := xs.length :: xs

/-- Parse one length-prefixed segment, returning it and the rest. -/
def decSeg : List Nat → Option (List Nat × List Nat)
  | [] => none
  | n :: rest => if n ≤ rest.length then some (rest.take n, rest.drop n) else none

/-- `json.Marshal` of `CredentialData`, modelled injectively. -/
def marshalCred (c : CredentialData) : List Nat :=
  encSeg (strBytes c.Password) ++ encSeg (strBytes c.PrivateKey) ++
    encSeg (strBytes c.Passphrase)

/-- `json.Unmarshal` into `CredentialData`. -/
def unmarshalCred (l : List Nat) : Option CredentialData :=
  match decSeg l with
  | none => none
  | some (p, r1) =>
    match decSeg r1 with
    | none => none
    | some (k, r2) =>
      match decSeg r2 with
      | none => none
      | some (ph, r3) =>
        if r3 = [] then some ⟨bytesStr p, bytesStr k, bytesStr ph⟩ else none

/-- `json.Marshal` of `EncryptedData`, modelled injectively. -/
def marshalEnv (e : EncryptedData) : List Nat :=
  encSeg e.Salt ++ encSeg e.Nonce ++ encSeg e.Ciphertext

/-- `json.Unmarshal` into `EncryptedData`. -/
def unmarshalEnv (l : List Nat) : Option EncryptedData :=
  match decSeg l with
  | none => none
  | some (s, r1) =>
    match decSeg r1 with
    | none => none
    | some (n, r2) =>
      match decSeg r2 with
      | none => none
      | some (ct, r3) => if r3 = [] then some ⟨s, n, ct⟩ else none

/-! ### The credential vault (`EncryptCredential` / `DecryptCredential`) -/

/-- `EncryptCredential` from the credential service.  The server secret and
the sampled salt/nonce are explicit parameters (Go reads the secret from
the process config and samples 16 salt bytes and 12 nonce bytes).
JSON marshalling and the randomness source cannot fail in the model, so
the `error` return of the Go function is dropped. -/
def EncryptCredential (serverSecret : String) (data : CredentialData)
    (userPassword : String) (salt nonce : List Nat) : List Nat :=
  let plaintext := marshalCred data
  let key := deriveKey serverSecret userPassword salt
  let ciphertext := gcmSeal key nonce plaintext
  marshalEnv ⟨salt, nonce, ciphertext⟩

/-- Errors of `DecryptCredential`, in the order the Go code can produce
them.  `authFailed` is the
"decryption failed - invalid password or corrupted data" error. -/
inductive DecryptErr
  | unmarshalEnvFailed
  | invalidNonceSize
  | authFailed
  | unmarshalCredFailed
deriving DecidableEq

/-- The part of `DecryptCredential` after the envelope has been
unmarshalled: derive the key from the envelope's own salt, validate the
nonce size, open the AEAD, unmarshal the plaintext.  (`aes.NewCipher` and
`cipher.NewGCM` cannot fail on a 32-byte derived key, so those two error
returns are dropped.) -/
def DecryptCredentialEnv (serverSecret : String) (encData : EncryptedData)
    (userPassword : String) : Except DecryptErr CredentialData :=
  let key := deriveKey serverSecret userPassword encData.Salt
  if encData.Nonce.length ≠ gcmNonceSize then .error .invalidNonceSize
  else
    match gcmOpen key encData.Nonce encData.Ciphertext with
    | none => .error .authFailed
    | some plaintext =>
      match unmarshalCred plaintext with
      | none => .error .unmarshalCredFailed
      | some data => .ok data

/-- `DecryptCredential` from the credential service. -/
def DecryptCredential (serverSecret : String) (encryptedBytes : List Nat)
    (userPassword : String) : Except DecryptErr CredentialData :=
  match unmarshalEnv encryptedBytes with
  | none => .error .unmarshalEnvFailed
  | some encData => DecryptCredentialEnv serverSecret encData userPassword

/-! ### The SSH connector (`backend/services/ssh.go`) -/

/-- `SSHConfig` from `backend/services/ssh.go`. -/
structure SSHConfig where
  Hostname : String
  Port : Int
  Username : String
  Password : String
  PrivateKey : String
  Passphrase : String
  HostKey : String
  SkipHostKeyCheck : Bool
deriving DecidableEq

/-- `HostKeyResult` from `backend/services/ssh.go`; `Status` is one of
`"new"`, `"match"`, `"mismatch"` exactly as in the Go code. -/
structure HostKeyResult where
  Fingerprint : String
  Status : String
deriving DecidableEq

/-- The classification performed by the host-key callback in `ConnectSSH`
(`backend/services/ssh.go` lines 79-92), as a pure function of the stored
fingerprint (`cfg.HostKey`) and the observed fingerprint. -/
def classify (stored observed : String) : String :=
  if stored = "" then "new"
  else if stored = observed then "match"
  else "mismatch"

/-- Environment of one connection attempt: what the network and the
remote host would do, passed explicitly.  `observedFp` is
`ssh.FingerprintSHA256` of the key the host presents; `parseOk` is
whether `ssh.ParsePrivateKey`(`WithPassphrase`) succeeds on the supplied
private key; `tcpOk` is whether the TCP connect and handshake reach the
host-key exchange; `authOk` is whether the remote host accepts one of the
offered authentication methods. -/
structure SSHNet where
  observedFp : String
  tcpOk : Bool
  parseOk : Bool
  authOk : Bool

/-- Errors of `ConnectSSH`. -/
inductive ConnectErr
  | keyParseFailed
  | noAuthMethod
  | hostKeyMismatch
  | dialFailed
deriving DecidableEq

/-- Result of `ConnectSSH`, mirroring the Go triple
`(*SSHSession, *HostKeyResult, error)`: the session pointer is non-nil
exactly when the error is nil, and the host-key result accompanying an
error is non-nil only on the host-key rejection path. -/
inductive ConnectResult
  | err (hostKey : Option HostKeyResult) (e : ConnectErr)
  | ok (hostKey : HostKeyResult)
deriving DecidableEq

/-- `ConnectSSH` from `backend/services/ssh.go`.  Control flow follows the
source: build auth methods (password first, then private key, failing on
an unparsable key), fail with no-auth-method when both credential fields
are empty, dial; during the handshake the host-key callback records the
fingerprint and classification and rejects a mismatch only when
`SkipHostKeyCheck` is false; on a dial error caused by that rejection the
host-key result is still returned alongside the error. -/
def ConnectSSH (cfg : SSHConfig) (net : SSHNet) : ConnectResult :=
  if cfg.PrivateKey ≠ "" ∧ net.parseOk = false then .err none .keyParseFailed
  else if cfg.Password = "" ∧ cfg.PrivateKey = "" then .err none .noAuthMethod
  else if net.tcpOk = false then .err none .dialFailed
  else
    let result : HostKeyResult := ⟨net.observedFp, classify cfg.HostKey net.observedFp⟩
    if result.Status = "mismatch" ∧ cfg.SkipHostKeyCheck = false then
      .err (some result) .hostKeyMismatch
    else if net.authOk = false then .err none .dialFailed
    else .ok result

/-! ### SFTP directory listing (`backend/services/sftp.go`) -/

/-- `FileInfo` from `backend/services/sftp.go`. -/
structure FileInfo where
  Name : String
  Path : String
  Size : Int
  Mode : String
  ModTime : Int
  IsDir : Bool
deriving DecidableEq

/-- One entry as returned by `sftpClient.ReadDir` (`os.FileInfo`). -/
structure DirEntry where
  name : String
  size : Int
  mode : String
  modTime : Int
  isDir : Bool
deriving DecidableEq

/-- `filepath.Join(path, name)`, modelled as concatenation with a
separator (path cleaning is irrelevant here). -/
def filepathJoin (path name : String) : String := path ++ "/" ++ name

/-- The `FileInfo` built for one directory entry in `ListDirectory`. -/
def mkFileInfo (path : String) (e : DirEntry) : FileInfo :=
  ⟨e.name, filepathJoin path e.name, e.size, e.mode, e.modTime, e.isDir⟩

/-- The comparison closure passed to `sort.Slice` in `ListDirectory`:
directories first, then by name. -/
def fileLess (a b : FileInfo) : Bool :=
  if a.IsDir ≠ b.IsDir then a.IsDir else decide (a.Name < b.Name)

/-- The (total, transitive) non-strict order induced by `fileLess`; a
sequence is sorted for `sort.Slice` exactly when it is pairwise in this
relation. -/
def fileLe (a b : FileInfo) : Prop := fileLess b a = false

instance : DecidableRel fileLe := fun a b => by
  unfold fileLe
  infer_instance

instance : IsTotal FileInfo fileLe where
  total a b := by
    unfold fileLe fileLess
    cases ha : a.IsDir <;> cases hb : b.IsDir <;>
      simp [ha, hb, not_lt] <;> exact le_total _ _

instance : IsTrans FileInfo fileLe where
  trans a b c hab hbc := by
    unfold fileLe fileLess at hab hbc ⊢
    cases ha : a.IsDir <;> cases hb : b.IsDir <;> cases hc : c.IsDir <;>
      simp [ha, hb, hc, not_lt] at hab hbc ⊢ <;>
      exact le_trans hab hbc

/-- `ListDirectory` from `backend/services/sftp.go`, modelled from the
point where `ReadDir` has returned the raw entries: build a `FileInfo`
per entry, then sort with `sort.Slice` and the directories-first,
then-by-name comparison.  (`sort.Slice` is unstable; any sort producing a
permutation ordered by the comparator is a faithful model, here insertion
sort.) -/
def ListDirectory (path : String) (entries : List DirEntry) : List FileInfo :=
  List.insertionSort fileLe (entries.map (mkFileInfo path))

/-! ### The WebSocket session bridge (`SSHWebSocket` handler)

Each incoming WebSocket text frame is modelled by a `Frame`, the result of
the two-stage JSON decoding the handler performs (`WSMessage` envelope,
then the per-type payload):

* `malformed`      - `json.Unmarshal` fails on the envelope,
* `auth key`       - type `"auth"` with well-formed `AuthData`,
* `authBad`        - type `"auth"` whose payload fails to unmarshal,
* `hostKeyConfirm` - type `"host_key_confirm"` with well-formed payload,
* `confirmBad`     - type `"host_key_confirm"` with a bad payload,
* `input`/`inputBad`, `resize`/`resizeBad`, `ping` - likewise,
* `other t`        - a well-formed envelope of any other type string `t`.

The handler is a function from the environment (id parsing, database
lookup, network outcomes, shell start/write outcomes) and the ordered
script of client frames to the trace of externally visible events and a
final state.  An empty remaining script at a blocking read models the
read deadline expiring (or the peer closing).  The stdout/stderr relay
goroutines only emit `output` frames and are not part of the claims
modelled here. -/

/-- The `Machine` record fields the handler uses. -/
structure Machine where
  Name : String
  Hostname : String
  Port : Int
  Username : String
  CredentialEncrypted : List Nat
  HostKey : String
deriving DecidableEq

/-- One decoded client frame (see section comment). -/
inductive Frame
  | malformed
  | auth (key : String)
  | authBad
  | hostKeyConfirm (accept : Bool)
  | confirmBad
  | input (data : String)
  | inputBad
  | resize (rows cols : Int)
  | resizeBad
  | ping
  | other (t : String)
deriving DecidableEq

/-- Externally visible events of one handler run, in order:
messages sent on the WebSocket, the WebSocket close performed by
`sendWSError`, `session.Close()`, the GORM `Update("host_key", fp)`, the
bridge consuming a `host_key_confirm` payload, `StartShell` succeeding,
and the two audit notifications. -/
inductive Ev
  | sent (t : String)
  | wsClosed
  | sessionClosed
  | dbUpdateHostKey (fp : String)
  | confirmReceived (accept : Bool)
  | shellStarted
  | auditConnect
  | auditDisconnect
deriving DecidableEq

/-- Final state of a handler run: `failed` when the run ends through
`sendWSError`, `closed` when it ends by leaving the read loop (peer
disconnect or SSH write error) with the deferred cleanups run. -/
inductive BState
  | failed
  | closed
deriving DecidableEq

/-- Environment of one handler run. -/
structure BridgeEnv where
  serverSecret : String
  machineIDOk : Bool
  userIDOk : Bool
  machineFound : Bool
  machine : Machine
  net : SSHNet
  shellStartOk : Bool
  sshWriteOk : Bool

/-- Prefix a trace onto a phase result. -/
def withPre (pre : List Ev) (r : List Ev × BState) : List Ev × BState :=
  (pre ++ r.1, r.2)

/-- `sendWSError`: send an `error` message, then close the WebSocket. -/
def errTrace : List Ev := [Ev.sent "error", Ev.wsClosed]

/-- The main receive loop of `SSHWebSocket` (transport → shell):
`input` writes to the shell (an error there returns from the handler),
`resize` resizes (an error there is only logged), `ping` answers `pong`,
a malformed envelope or bad payload is logged and skipped, and any other
message type falls through the `switch` and is ignored. -/
def wsReadLoop (env : BridgeEnv) : List Frame → List Ev
  | [] => []
  | f :: rest =>
    match f with
    | .input _ => if env.sshWriteOk then wsReadLoop env rest else []
    | .resize _ _ => wsReadLoop env rest
    | .ping => Ev.sent "pong" :: wsReadLoop env rest
    | _ => wsReadLoop env rest

/-- From `StartShell` on: start the shell (failure sends an error and
returns, the deferred `session.Close` still running), send `connected`,
record the audit connect, run the receive loop, then the deferred
cleanups (audit disconnect, `session.Close`). -/
def shellPhase (env : BridgeEnv) (rest : List Frame) : List Ev × BState :=
  if env.shellStartOk = false then
    ([Ev.sent "error", Ev.wsClosed, Ev.sessionClosed], .failed)
  else
    ([Ev.shellStarted, Ev.sent "connected", Ev.auditConnect] ++ wsReadLoop env rest ++
      [Ev.auditDisconnect, Ev.sessionClosed], .closed)

/-- The conditional host-key confirmation step of `SSHWebSocket`
(entered only when the classification is `new` or `mismatch`): send
`host_key_verify`, block for one message; a timeout, a message of any
other type, or a bad payload closes the SSH session and fails the run; a
rejection closes the SSH session and fails the run; an acceptance
overwrites the stored fingerprint and proceeds to the shell phase. -/
def hostKeyPhase (env : BridgeEnv) (hk : HostKeyResult) (script : List Frame) :
    List Ev × BState :=
  if hk.Status = "new" ∨ hk.Status = "mismatch" then
    withPre [Ev.sent "host_key_verify"] (
      match script with
      | [] => ([Ev.sessionClosed] ++ errTrace, .failed)
      | .hostKeyConfirm accept :: rest =>
        withPre [Ev.confirmReceived accept] (
          if accept then
            withPre [Ev.dbUpdateHostKey hk.Fingerprint] (shellPhase env rest)
          else ([Ev.sessionClosed] ++ errTrace, .failed))
      | _ :: _ => ([Ev.sessionClosed] ++ errTrace, .failed))
  else shellPhase env script

/-- The `SSHConfig` the handler builds (host-key check skipped so the
bridge itself decides from the classification). -/
def bridgeSSHConfig (m : Machine) (cred : CredentialData) : SSHConfig :=
  { Hostname := m.Hostname, Port := m.Port, Username := m.Username,
    Password := cred.Password, PrivateKey := cred.PrivateKey,
    Passphrase := cred.Passphrase, HostKey := m.HostKey,
    SkipHostKeyCheck := true }

/-- The `SSHWebSocket` handler: validate ids, send `ready`, block for the
`auth` message (timeout, wrong type, or a bad/empty key fails the run),
fetch the machine, decrypt the credential, connect, then the host-key
phase and shell phase. -/
def SSHWebSocket (env : BridgeEnv) (script : List Frame) : List Ev × BState :=
  if env.machineIDOk = false then (errTrace, .failed)
  else if env.userIDOk = false then (errTrace, .failed)
  else
    withPre [Ev.sent "ready"] (
      match script with
      | [] => (errTrace, .failed)
      | .auth key :: rest =>
        if key = "" then (errTrace, .failed)
        else if env.machineFound = false then (errTrace, .failed)
        else
          match DecryptCredential env.serverSecret env.machine.CredentialEncrypted key with
          | .error _ => (errTrace, .failed)
          | .ok cred =>
            match ConnectSSH (bridgeSSHConfig env.machine cred) env.net with
            | .err _ _ => (errTrace, .failed)
            | .ok hk => hostKeyPhase env hk rest
      | _ :: _ => (errTrace, .failed))

/-- Semantics of the ledger events on a machine record: a
`dbUpdateHostKey` event is GORM's `Update("host_key", fp)`, which writes
only that column. -/
def applyLedger (m : Machine) : List Ev → Machine
  | [] => m
  | Ev.dbUpdateHostKey fp :: rest => applyLedger { m with HostKey := fp } rest
  | _ :: rest => applyLedger m rest

/-- A single-bit flip of byte `i` of a byte string (no-op out of range,
as with `List.set`). -/
def flipBit (xs : List Nat) (i b : Nat) : List Nat :=
  xs.set i (xs.getD i 0 ^^^ 2 ^ b)

/-- Whether an event is a write to the stored host fingerprint. -/
def isLedgerWrite (e : Ev) : Bool :=
  match e with
  | .dbUpdateHostKey _ => true
  | _ => false

/-- The ledger writes of a trace, in order. -/
def ledgerWrites (tr : List Ev) : List Ev := tr.filter isLedgerWrite

/-- A concrete healthy environment whose target has no stored
fingerprint (classification `new`). -/
def bridgeWitnessEnv : BridgeEnv :=
  { serverSecret := "srv", machineIDOk := true, userIDOk := true,
    machineFound := true,
    machine :=
      { Name := "m", Hostname := "h", Port := 22, Username := "u",
        CredentialEncrypted := EncryptCredential "srv" ⟨"p", "", ""⟩ "pw" []
          (List.replicate 12 0),
        HostKey := "" },
    net :=
      { observedFp := "SHA256:abc", tcpOk := true, parseOk := true,
        authOk := true },
    shellStartOk := true, sshWriteOk := true }

/-- A concrete healthy environment whose stored fingerprint matches the
observed one (classification `match`, no confirmation step). -/
def bridgeMatchEnv : BridgeEnv :=
  { serverSecret := "srv", machineIDOk := true, userIDOk := true,
    machineFound := true,
    machine :=
      { Name := "m", Hostname := "h", Port := 22, Username := "u",
        CredentialEncrypted := EncryptCredential "srv" ⟨"p", "", ""⟩ "pw" []
          (List.replicate 12 0),
        HostKey := "SHA256:abc" },
    net :=
      { observedFp := "SHA256:abc", tcpOk := true, parseOk := true,
        authOk := true },
    shellStartOk := true, sshWriteOk := true }

/-! ## Helper lemmas -/

theorem encList_injective : ∀ {l1 l2 : List Nat}, encList l1 = encList l2 → l1 = l2
  | [], [], _ => rfl
  | [], _ :: _, h => by simp [encList] at h
  | _ :: _, [], h => by simp [encList] at h
  | a :: l1, b :: l2, h => by
    simp only [encList, Nat.add_right_cancel_iff, Nat.pair_eq_pair] at h
    obtain ⟨rfl, h2⟩ := h
    rw [encList_injective h2]

theorem bytesStr_strBytes (s : String) : bytesStr (strBytes s) = s := by
  have h : (strBytes s).map Char.ofNat = s.toList := by
    rw [strBytes, List.map_map]
    have h2 : (Char.ofNat ∘ Char.toNat) = id := by
      funext c
      simp [Function.comp, Char.ofNat_toNat]
    rw [h2, List.map_id]
  rw [bytesStr, h]
  rfl

theorem deriveKey_salt_injective {secret pw : String} {s1 s2 : List Nat}
    (h : deriveKey secret pw s1 = deriveKey secret pw s2) : s1 = s2 := by
  simp only [deriveKey, pbkdf2Key, Nat.pair_eq_pair] at h
  exact encList_injective h.2

theorem gcmTag_injective {k1 k2 : Nat} {n1 n2 p1 p2 : List Nat}
    (h : gcmTag k1 n1 p1 = gcmTag k2 n2 p2) : k1 = k2 ∧ n1 = n2 ∧ p1 = p2 := by
  simp only [gcmTag, Nat.pair_eq_pair] at h
  exact ⟨h.1, encList_injective h.2.1, encList_injective h.2.2⟩

theorem gcmOpen_gcmSeal (key : Nat) (nonce pt : List Nat) :
    gcmOpen key nonce (gcmSeal key nonce pt) = some pt := by
  simp [gcmOpen, gcmSeal, List.getLast?_concat, List.dropLast_concat]

theorem decSeg_encSeg (xs ys : List Nat) : decSeg (encSeg xs ++ ys) = some (xs, ys) := by
  simp [decSeg, encSeg, List.take_left, List.drop_left]

theorem decSeg_encSeg_nil (xs : List Nat) : decSeg (encSeg xs) = some (xs, []) := by
  simpa using decSeg_encSeg xs []

theorem unmarshalCred_marshalCred (c : CredentialData) :
    unmarshalCred (marshalCred c) = some c := by
  rw [marshalCred, List.append_assoc]
  simp [unmarshalCred, decSeg_encSeg, decSeg_encSeg_nil, bytesStr_strBytes]

theorem unmarshalEnv_marshalEnv (e : EncryptedData) :
    unmarshalEnv (marshalEnv e) = some e := by
  rw [marshalEnv, List.append_assoc]
  simp [unmarshalEnv, decSeg_encSeg, decSeg_encSeg_nil]

theorem xor_pow_ne (x b : Nat) : x ^^^ 2 ^ b ≠ x := by
  intro h
  have h2 : 2 ^ b = x ^^^ (x ^^^ 2 ^ b) := by
    rw [← Nat.xor_assoc, Nat.xor_self, Nat.zero_xor]
  rw [h, Nat.xor_self] at h2
  have h3 : 0 < 2 ^ b := pow_pos (by norm_num) b
  omega

theorem flipBit_ne (xs : List Nat) (i b : Nat) (hi : i < xs.length) :
    flipBit xs i b ≠ xs := by
  intro h
  have hv := congrArg (fun l => List.getD l i 0) h
  have hL : (flipBit xs i b).getD i 0 = xs.getD i 0 ^^^ 2 ^ b := by
    unfold flipBit
    rw [List.getD_eq_getElem _ 0 (by simpa using hi)]
    exact List.getElem_set_self _
  simp only [hL] at hv
  exact xor_pow_ne (xs.getD i 0) b hv

theorem length_flipBit (xs : List Nat) (i b : Nat) :
    (flipBit xs i b).length = xs.length := by
  simp [flipBit]

theorem gcmOpen_flip_ct (key : Nat) (nonce pt : List Nat) (i b : Nat)
    (hi : i < (gcmSeal key nonce pt).length) :
    gcmOpen key nonce (flipBit (gcmSeal key nonce pt) i b) = none := by
  have hlen : (gcmSeal key nonce pt).length = pt.length + 1 := by
    simp [gcmSeal]
  rcases Nat.lt_or_ge i pt.length with hlt | hge
  · have hd : (gcmSeal key nonce pt).getD i 0 = pt.getD i 0 := by
      rw [gcmSeal, List.getD_eq_getElem?_getD, List.getD_eq_getElem?_getD,
        List.getElem?_append_left hlt]
    have hset : flipBit (gcmSeal key nonce pt) i b =
        flipBit pt i b ++ [gcmTag key nonce pt] := by
      rw [flipBit, flipBit, hd, gcmSeal, List.set_append_left _ _ hlt]
    rw [hset, gcmOpen]
    simp only [List.getLast?_concat, List.dropLast_concat]
    rw [if_neg]
    intro htag
    exact flipBit_ne pt i b hlt (gcmTag_injective htag).2.2
  · have hieq : i = pt.length := by
      rw [hlen] at hi
      omega
    have hd : (gcmSeal key nonce pt).getD i 0 = gcmTag key nonce pt := by
      rw [gcmSeal, hieq]
      simp [List.getD_eq_getElem?_getD]
    have hset : flipBit (gcmSeal key nonce pt) i b =
        pt ++ [gcmTag key nonce pt ^^^ 2 ^ b] := by
      rw [flipBit, hd, gcmSeal, hieq, List.set_append_right _ _ (le_refl _)]
      simp
    rw [hset, gcmOpen]
    simp only [List.getLast?_concat, List.dropLast_concat]
    rw [if_neg]
    intro htag
    exact xor_pow_ne (gcmTag key nonce pt) b (htag.symm)

theorem gcmOpen_flip_nonce (key : Nat) (nonce pt : List Nat) (j b : Nat)
    (hj : j < nonce.length) :
    gcmOpen key (flipBit nonce j b) (gcmSeal key nonce pt) = none := by
  rw [gcmSeal, gcmOpen]
  simp only [List.getLast?_concat, List.dropLast_concat]
  rw [if_neg]
  intro htag
  exact flipBit_ne nonce j b hj (gcmTag_injective htag).2.1

theorem wsReadLoop_events (env : BridgeEnv) (l : List Frame) :
    ∀ e ∈ wsReadLoop env l, e = Ev.sent "pong" := by
  induction l with
  | nil => simp [wsReadLoop]
  | cons f rest ih =>
    cases f <;> simp only [wsReadLoop] <;> try exact ih
    · split
      · exact ih
      · simp
    · intro e he
      rcases List.mem_cons.mp he with rfl | he
      · rfl
      · exact ih e he

theorem shellPhase_events (env : BridgeEnv) (rest : List Frame) :
    ∀ e ∈ (shellPhase env rest).1,
      e = Ev.sent "error" ∨ e = Ev.wsClosed ∨ e = Ev.sessionClosed ∨
      e = Ev.shellStarted ∨ e = Ev.sent "connected" ∨ e = Ev.auditConnect ∨
      e = Ev.sent "pong" ∨ e = Ev.auditDisconnect := by
  unfold shellPhase
  split
  · simp
  · intro e he
    rcases List.mem_append.mp he with h1 | h2
    · rcases List.mem_append.mp h1 with h3 | h4
      · simp only [List.mem_cons, List.not_mem_nil, or_false] at h3
        rcases h3 with rfl | rfl | rfl <;> tauto
      · have := wsReadLoop_events env rest e h4
        tauto
    · simp only [List.mem_cons, List.not_mem_nil, or_false] at h2
      rcases h2 with rfl | rfl <;> tauto

theorem ConnectSSH_ok_hk (cfg : SSHConfig) (net : SSHNet) (hk : HostKeyResult)
    (h : ConnectSSH cfg net = .ok hk) :
    hk = ⟨net.observedFp, classify cfg.HostKey net.observedFp⟩ := by
  rw [ConnectSSH] at h
  split at h
  · exact absurd h (by simp)
  · split at h
    · exact absurd h (by simp)
    · split at h
      · exact absurd h (by simp)
      · simp only at h
        split at h
        · exact absurd h (by simp)
        · split at h
          · exact absurd h (by simp)
          · exact (ConnectResult.ok.inj h).symm

theorem SSHWebSocket_cases (env : BridgeEnv) (script : List Frame) :
    (∃ tr, SSHWebSocket env script = (tr, .failed) ∧
      ∀ e ∈ tr, e = Ev.sent "ready" ∨ e = Ev.sent "error" ∨ e = Ev.wsClosed) ∨
    (∃ rest, SSHWebSocket env script =
      withPre [Ev.sent "ready"] (hostKeyPhase env
        ⟨env.net.observedFp, classify env.machine.HostKey env.net.observedFp⟩ rest)) := by
  rw [SSHWebSocket.eq_def]
  split
  · exact Or.inl ⟨errTrace, rfl, by simp [errTrace]⟩
  · split
    · exact Or.inl ⟨errTrace, rfl, by simp [errTrace]⟩
    · match script with
      | [] => exact Or.inl ⟨_, rfl, by simp [withPre, errTrace]⟩
      | .auth key :: rest =>
        simp only
        split
        · exact Or.inl ⟨_, rfl, by simp [withPre, errTrace]⟩
        · split
          · exact Or.inl ⟨_, rfl, by simp [withPre, errTrace]⟩
          · match hd : DecryptCredential env.serverSecret
                env.machine.CredentialEncrypted key with
            | .error e => exact Or.inl ⟨_, rfl, by simp [withPre, errTrace]⟩
            | .ok cred =>
              match hc : ConnectSSH (bridgeSSHConfig env.machine cred) env.net with
              | .err hko e =>
                refine Or.inl ⟨[Ev.sent "ready"] ++ errTrace, by simp [hc, withPre],
                  by simp [withPre, errTrace]⟩
              | .ok hk =>
                have hhk := ConnectSSH_ok_hk _ _ _ hc
                subst hhk
                refine Or.inr ⟨rest, ?_⟩
                simp only [bridgeSSHConfig] at hc
                simp [hc, withPre, bridgeSSHConfig]
      | .malformed :: rest => exact Or.inl ⟨_, rfl, by simp [withPre, errTrace]⟩
      | .authBad :: rest => exact Or.inl ⟨_, rfl, by simp [withPre, errTrace]⟩
      | .hostKeyConfirm a :: rest => exact Or.inl ⟨_, rfl, by simp [withPre, errTrace]⟩
      | .confirmBad :: rest => exact Or.inl ⟨_, rfl, by simp [withPre, errTrace]⟩
      | .input d :: rest => exact Or.inl ⟨_, rfl, by simp [withPre, errTrace]⟩
      | .inputBad :: rest => exact Or.inl ⟨_, rfl, by simp [withPre, errTrace]⟩
      | .resize r cl :: rest => exact Or.inl ⟨_, rfl, by simp [withPre, errTrace]⟩
      | .resizeBad :: rest => exact Or.inl ⟨_, rfl, by simp [withPre, errTrace]⟩
      | .ping :: rest => exact Or.inl ⟨_, rfl, by simp [withPre, errTrace]⟩
      | .other t :: rest => exact Or.inl ⟨_, rfl, by simp [withPre, errTrace]⟩

theorem hostKeyPhase_shellStarted (env : BridgeEnv) (hk : HostKeyResult)
    (script : List Frame)
    (hst : hk.Status = "new" ∨ hk.Status = "mismatch")
    (hmem : Ev.shellStarted ∈ (hostKeyPhase env hk script).1) :
    [Ev.sent "host_key_verify", Ev.confirmReceived true, Ev.shellStarted].Sublist
      (hostKeyPhase env hk script).1 := by
  rw [hostKeyPhase.eq_def, if_pos hst] at hmem ⊢
  cases script with
  | nil => simp [withPre, errTrace] at hmem
  | cons f rest =>
    cases f with
    | hostKeyConfirm accept =>
      cases accept with
      | false => simp [withPre, errTrace] at hmem
      | true =>
        cases hso : env.shellStartOk with
        | false => simp [withPre, shellPhase, hso, errTrace] at hmem
        | true =>
          have htr : (Ev.sent "host_key_verify" :: Ev.confirmReceived true ::
              Ev.dbUpdateHostKey hk.Fingerprint :: Ev.shellStarted ::
              Ev.sent "connected" :: Ev.auditConnect ::
              (wsReadLoop env rest ++ [Ev.auditDisconnect, Ev.sessionClosed]) :
              List Ev) =
              (withPre [Ev.sent "host_key_verify"]
                (withPre [Ev.confirmReceived true]
                  (withPre [Ev.dbUpdateHostKey hk.Fingerprint]
                    (shellPhase env rest)))).1 := by
            simp [withPre, shellPhase, hso]
          simp only [if_pos rfl, if_true]
          rw [← htr]
          exact List.Sublist.cons₂ _ (List.Sublist.cons₂ _ (List.Sublist.cons _
            (List.Sublist.cons₂ _ (List.nil_sublist _))))
    | malformed => simp [withPre, errTrace] at hmem
    | auth key => simp [withPre, errTrace] at hmem
    | authBad => simp [withPre, errTrace] at hmem
    | confirmBad => simp [withPre, errTrace] at hmem
    | input d => simp [withPre, errTrace] at hmem
    | inputBad => simp [withPre, errTrace] at hmem
    | resize r cl => simp [withPre, errTrace] at hmem
    | resizeBad => simp [withPre, errTrace] at hmem
    | ping => simp [withPre, errTrace] at hmem
    | other t => simp [withPre, errTrace] at hmem

theorem hostKeyPhase_reject (env : BridgeEnv) (hk : HostKeyResult)
    (script : List Frame)
    (hmem : Ev.confirmReceived false ∈ (hostKeyPhase env hk script).1) :
    (hostKeyPhase env hk script).2 = .failed ∧
      Ev.sessionClosed ∈ (hostKeyPhase env hk script).1 := by
  by_cases hst : hk.Status = "new" ∨ hk.Status = "mismatch"
  · rw [hostKeyPhase.eq_def, if_pos hst] at hmem ⊢
    cases script with
    | nil => simp [withPre, errTrace]
    | cons f rest =>
      cases f with
      | hostKeyConfirm accept =>
        cases accept with
        | false => simp [withPre, errTrace]
        | true =>
          exfalso
          cases hso : env.shellStartOk with
          | false => simp [withPre, shellPhase, hso, errTrace] at hmem
          | true =>
            simp [withPre, shellPhase, hso, errTrace] at hmem
            have := wsReadLoop_events env rest _ hmem
            simp at this
      | malformed => simp [withPre, errTrace] at hmem
      | auth key => simp [withPre, errTrace] at hmem
      | authBad => simp [withPre, errTrace] at hmem
      | confirmBad => simp [withPre, errTrace] at hmem
      | input d => simp [withPre, errTrace] at hmem
      | inputBad => simp [withPre, errTrace] at hmem
      | resize r cl => simp [withPre, errTrace] at hmem
      | resizeBad => simp [withPre, errTrace] at hmem
      | ping => simp [withPre, errTrace] at hmem
      | other t => simp [withPre, errTrace] at hmem
  · rw [hostKeyPhase.eq_def, if_neg hst] at hmem
    have := shellPhase_events env script _ hmem
    simp at this

theorem applyLedger_filter (tr : List Ev) :
    ∀ m : Machine, applyLedger m tr = applyLedger m (ledgerWrites tr) := by
  induction tr with
  | nil => intro m; rfl
  | cons e rest ih =>
    intro m
    cases e <;>
      simp [applyLedger, ledgerWrites, List.filter_cons, isLedgerWrite] <;>
      rw [← ledgerWrites] <;> exact ih _

theorem ledgerWrites_nil_of (tr : List Ev)
    (h : ∀ fp, Ev.dbUpdateHostKey fp ∉ tr) : ledgerWrites tr = [] := by
  rw [ledgerWrites, List.filter_eq_nil_iff]
  intro e he
  cases e <;> simp [isLedgerWrite]
  case dbUpdateHostKey fp => exact absurd he (h fp)

theorem applyLedger_preserves (tr : List Ev) :
    ∀ m0 : Machine, (applyLedger m0 tr).Name = m0.Name ∧
      (applyLedger m0 tr).Hostname = m0.Hostname ∧
      (applyLedger m0 tr).Port = m0.Port ∧
      (applyLedger m0 tr).Username = m0.Username ∧
      (applyLedger m0 tr).CredentialEncrypted = m0.CredentialEncrypted := by
  induction tr with
  | nil => intro m0; exact ⟨rfl, rfl, rfl, rfl, rfl⟩
  | cons e rest ih =>
    intro m0
    cases e <;> simp only [applyLedger] <;> exact ih _

theorem shellPhase_no_confirm (env : BridgeEnv) (rest : List Frame) (a : Bool) :
    Ev.confirmReceived a ∉ (shellPhase env rest).1 := by
  intro h
  have := shellPhase_events env rest _ h
  simp at this

theorem shellPhase_writes_nil (env : BridgeEnv) (rest : List Frame) :
    ledgerWrites (shellPhase env rest).1 = [] := by
  refine ledgerWrites_nil_of _ (fun fp h => ?_)
  have := shellPhase_events env rest _ h
  simp at this

theorem hostKeyPhase_writes (env : BridgeEnv) (hk : HostKeyResult)
    (script : List Frame) :
    (Ev.confirmReceived true ∉ (hostKeyPhase env hk script).1 ∧
      ledgerWrites (hostKeyPhase env hk script).1 = []) ∨
    (Ev.confirmReceived true ∈ (hostKeyPhase env hk script).1 ∧
      ledgerWrites (hostKeyPhase env hk script).1 =
        [Ev.dbUpdateHostKey hk.Fingerprint]) := by
  by_cases hst : hk.Status = "new" ∨ hk.Status = "mismatch"
  · rw [hostKeyPhase.eq_def, if_pos hst]
    cases script with
    | nil =>
      left
      constructor
      · simp [withPre, errTrace]
      · simp [withPre, errTrace, ledgerWrites, List.filter_cons, isLedgerWrite]
    | cons f rest =>
      cases f with
      | hostKeyConfirm accept =>
        cases accept with
        | false =>
          left
          constructor
          · simp [withPre, errTrace]
          · simp [withPre, errTrace, ledgerWrites, List.filter_cons, isLedgerWrite]
        | true =>
          right
          constructor
          · simp [withPre]
          · have hsp := shellPhase_writes_nil env rest
            rw [ledgerWrites] at hsp ⊢
            simp [withPre, List.filter_cons, List.filter_append, isLedgerWrite, hsp]
      | malformed =>
        exact Or.inl ⟨by simp [withPre, errTrace],
          by simp [withPre, errTrace, ledgerWrites, List.filter_cons, isLedgerWrite]⟩
      | auth key =>
        exact Or.inl ⟨by simp [withPre, errTrace],
          by simp [withPre, errTrace, ledgerWrites, List.filter_cons, isLedgerWrite]⟩
      | authBad =>
        exact Or.inl ⟨by simp [withPre, errTrace],
          by simp [withPre, errTrace, ledgerWrites, List.filter_cons, isLedgerWrite]⟩
      | confirmBad =>
        exact Or.inl ⟨by simp [withPre, errTrace],
          by simp [withPre, errTrace, ledgerWrites, List.filter_cons, isLedgerWrite]⟩
      | input d =>
        exact Or.inl ⟨by simp [withPre, errTrace],
          by simp [withPre, errTrace, ledgerWrites, List.filter_cons, isLedgerWrite]⟩
      | inputBad =>
        exact Or.inl ⟨by simp [withPre, errTrace],
          by simp [withPre, errTrace, ledgerWrites, List.filter_cons, isLedgerWrite]⟩
      | resize r cl =>
        exact Or.inl ⟨by simp [withPre, errTrace],
          by simp [withPre, errTrace, ledgerWrites, List.filter_cons, isLedgerWrite]⟩
      | resizeBad =>
        exact Or.inl ⟨by simp [withPre, errTrace],
          by simp [withPre, errTrace, ledgerWrites, List.filter_cons, isLedgerWrite]⟩
      | ping =>
        exact Or.inl ⟨by simp [withPre, errTrace],
          by simp [withPre, errTrace, ledgerWrites, List.filter_cons, isLedgerWrite]⟩
      | other t =>
        exact Or.inl ⟨by simp [withPre, errTrace],
          by simp [withPre, errTrace, ledgerWrites, List.filter_cons, isLedgerWrite]⟩
  · rw [hostKeyPhase.eq_def, if_neg hst]
    exact Or.inl ⟨shellPhase_no_confirm env script true, shellPhase_writes_nil env script⟩

/-- `fileLe` spelt out: directories strictly precede files, and within
one group names are in non-strict ascending order. -/
theorem fileLe_iff (a b : FileInfo) :
    fileLe a b ↔ (a.IsDir = true ∧ b.IsDir = false) ∨
      (a.IsDir = b.IsDir ∧ a.Name ≤ b.Name) := by
  unfold fileLe fileLess
  cases ha : a.IsDir <;> cases hb : b.IsDir <;>
    simp [ha, hb, not_lt]

/-! ## Claim theorems -/

/-- C1: for every credential `c` and key-material `k`, decrypting the
envelope produced by encrypting `c` under `k` with the same `k` returns
exactly `c`, for any sampled salt and any sampled nonce of the AEAD's
nonce size (the Go code always samples a 12-byte nonce):
`DecryptCredential(EncryptCredential(c, k), k) == c`. -/
theorem decrypt_encrypt_roundtrip (secret : String) (c : CredentialData)
    (k : String) (salt nonce : List Nat) (hn : nonce.length = gcmNonceSize) :
    DecryptCredential secret (EncryptCredential secret c k salt nonce) k = .ok c := by
  rw [EncryptCredential, DecryptCredential]
  rw [unmarshalEnv_marshalEnv]
  simp [DecryptCredentialEnv, hn, gcmOpen_gcmSeal, unmarshalCred_marshalCred]

/-- Witness for C1 at a concrete credential, key-material, salt and
nonce. -/
theorem decrypt_encrypt_roundtrip_witness :
    DecryptCredential "srv" (EncryptCredential "srv" ⟨"pass", "", ""⟩ "key" [7]
      (List.replicate 12 0)) "key" = .ok ⟨"pass", "", ""⟩ :=
  decrypt_encrypt_roundtrip "srv" ⟨"pass", "", ""⟩ "key" [7] (List.replicate 12 0) rfl

/-- C4 counterexample: the claim states `Classify(f, f) == match` for
every observed fingerprint `f`, but at `f = ""` the code's first branch
fires and classifies the pair as `new`, not `match`. -/
theorem classify_match_counterexample :
    classify "" "" = "new" ∧ classify "" "" ≠ "match" := by
  constructor
  · rfl
  · decide

/-- C4 (amended): host-key classification is a pure function of the
stored and observed fingerprints with `Classify("", g) == new` for every
`g`, `Classify(f, f) == match` for every non-empty `f`, and
`Classify(f1, f2) == mismatch` for every non-empty `f1 ≠ f2`. -/
theorem classify_spec (g f f1 f2 : String) (hf : f ≠ "") (h1 : f1 ≠ "")
    (hne : f1 ≠ f2) :
    classify "" g = "new" ∧ classify f f = "match" ∧ classify f1 f2 = "mismatch" := by
  refine ⟨by simp [classify], by simp [classify, hf], ?_⟩
  simp [classify, h1, hne]

/-- Witness for C4 (amended) at concrete fingerprints. -/
theorem classify_spec_witness :
    classify "" "x" = "new" ∧ classify "a" "a" = "match" ∧
      classify "a" "b" = "mismatch" :=
  classify_spec "x" "a" "a" "b" (by decide) (by decide) (by decide)

/-- C5: when `SkipHostKeyCheck` is false and the observed host key
mismatches the stored fingerprint (on a connection attempt that reaches
the host-key exchange with a usable auth method), `ConnectSSH` fails with
the host-key rejection error but still returns the `mismatch`
classification together with the observed fingerprint. -/
theorem connect_mismatch_returns_classification (cfg : SSHConfig) (net : SSHNet)
    (hskip : cfg.SkipHostKeyCheck = false)
    (hauth : cfg.Password ≠ "" ∨ cfg.PrivateKey ≠ "")
    (hparse : net.parseOk = true) (htcp : net.tcpOk = true)
    (hstored : cfg.HostKey ≠ "") (hne : cfg.HostKey ≠ net.observedFp) :
    ConnectSSH cfg net =
      .err (some ⟨net.observedFp, "mismatch"⟩) .hostKeyMismatch := by
  have hcl : classify cfg.HostKey net.observedFp = "mismatch" := by
    simp [classify, hstored, hne]
  rcases hauth with h | h <;>
    simp [ConnectSSH, hparse, htcp, h, hcl, hskip]

/-- Witness for C5 at a concrete config and network outcome. -/
theorem connect_mismatch_returns_classification_witness :
    ConnectSSH ⟨"host", 22, "user", "pw", "", "", "SHA256:old", false⟩
      ⟨"SHA256:new", true, true, true⟩ =
      .err (some ⟨"SHA256:new", "mismatch"⟩) .hostKeyMismatch :=
  connect_mismatch_returns_classification _ _ rfl (Or.inl (by decide)) rfl rfl
    (by decide) (by decide)

/-- C7: two encryptions of the same credential under the same
key-material with different sampled randomness (salt, nonce) produce
different ciphertexts, and hence different envelopes. -/
theorem encrypt_fresh_randomness_distinct (secret : String) (c : CredentialData)
    (k : String) (salt1 nonce1 salt2 nonce2 : List Nat)
    (h : (salt1, nonce1) ≠ (salt2, nonce2)) :
    gcmSeal (deriveKey secret k salt1) nonce1 (marshalCred c) ≠
      gcmSeal (deriveKey secret k salt2) nonce2 (marshalCred c) ∧
    EncryptCredential secret c k salt1 nonce1 ≠
      EncryptCredential secret c k salt2 nonce2 := by
  constructor
  · intro heq
    rw [gcmSeal, gcmSeal] at heq
    have htag := List.append_cancel_left heq
    have htag2 : gcmTag (deriveKey secret k salt1) nonce1 (marshalCred c) =
        gcmTag (deriveKey secret k salt2) nonce2 (marshalCred c) := by
      simpa using htag
    obtain ⟨hkey, hnonce, -⟩ := gcmTag_injective htag2
    exact h (by rw [deriveKey_salt_injective hkey, hnonce])
  · intro heq
    have h1 := unmarshalEnv_marshalEnv
      ⟨salt1, nonce1, gcmSeal (deriveKey secret k salt1) nonce1 (marshalCred c)⟩
    have h2 := unmarshalEnv_marshalEnv
      ⟨salt2, nonce2, gcmSeal (deriveKey secret k salt2) nonce2 (marshalCred c)⟩
    rw [EncryptCredential, EncryptCredential] at heq
    rw [heq, h2] at h1
    have h3 := Option.some.inj h1
    obtain ⟨hs, hn, -⟩ := EncryptedData.mk.injEq .. ▸ h3
    exact h (by rw [hs, hn])

/-- Witness for C7 at concrete inputs differing only in the salt. -/
theorem encrypt_fresh_randomness_distinct_witness :
    gcmSeal (deriveKey "srv" "key" [0]) (List.replicate 12 0) (marshalCred ⟨"p", "", ""⟩) ≠
      gcmSeal (deriveKey "srv" "key" [1]) (List.replicate 12 0) (marshalCred ⟨"p", "", ""⟩) ∧
    EncryptCredential "srv" ⟨"p", "", ""⟩ "key" [0] (List.replicate 12 0) ≠
      EncryptCredential "srv" ⟨"p", "", ""⟩ "key" [1] (List.replicate 12 0) :=
  encrypt_fresh_randomness_distinct "srv" ⟨"p", "", ""⟩ "key" [0]
    (List.replicate 12 0) [1] (List.replicate 12 0) (by decide)

/-- C3: flipping any single bit of the ciphertext or of the nonce of an
envelope produced by `EncryptCredential` (length preserved) makes
`DecryptCredential` with the correct key-material fail with the
authentication-failure error; it never returns a wrong plaintext. -/
theorem tamper_detection (secret : String) (c : CredentialData) (k : String)
    (salt nonce : List Nat) (hn : nonce.length = gcmNonceSize) (i b : Nat) :
    (i < (gcmSeal (deriveKey secret k salt) nonce (marshalCred c)).length →
      DecryptCredential secret (marshalEnv ⟨salt, nonce,
        flipBit (gcmSeal (deriveKey secret k salt) nonce (marshalCred c)) i b⟩) k =
        .error .authFailed) ∧
    (i < nonce.length →
      DecryptCredential secret (marshalEnv ⟨salt, flipBit nonce i b,
        gcmSeal (deriveKey secret k salt) nonce (marshalCred c)⟩) k =
        .error .authFailed) := by
  constructor
  · intro hi
    rw [DecryptCredential, unmarshalEnv_marshalEnv]
    simp [DecryptCredentialEnv, hn, gcmOpen_flip_ct _ _ _ _ _ hi]
  · intro hj
    rw [DecryptCredential, unmarshalEnv_marshalEnv]
    simp [DecryptCredentialEnv, hn, length_flipBit,
      gcmOpen_flip_nonce _ _ _ _ _ hj]

/-- Witness for C3: a concrete envelope with bit 0 of ciphertext byte 0
flipped, and with bit 0 of nonce byte 0 flipped. -/
theorem tamper_detection_witness :
    DecryptCredential "srv" (marshalEnv ⟨[2], List.replicate 12 0,
      flipBit (gcmSeal (deriveKey "srv" "key" [2]) (List.replicate 12 0)
        (marshalCred ⟨"p", "", ""⟩)) 0 0⟩) "key" = .error .authFailed ∧
    DecryptCredential "srv" (marshalEnv ⟨[2], flipBit (List.replicate 12 0) 0 0,
      gcmSeal (deriveKey "srv" "key" [2]) (List.replicate 12 0)
        (marshalCred ⟨"p", "", ""⟩)⟩) "key" = .error .authFailed :=
  ⟨(tamper_detection "srv" ⟨"p", "", ""⟩ "key" [2] (List.replicate 12 0) rfl 0 0).1
      (by decide),
    (tamper_detection "srv" ⟨"p", "", ""⟩ "key" [2] (List.replicate 12 0) rfl 0 0).2
      (by decide)⟩

/-- C10: `DecryptCredential` is total on malformed nonces: any envelope
whose decoded nonce length differs from the AEAD nonce size (12) is
rejected with the `invalid nonce size` error before the AEAD open call
(which would panic in Go on a wrong-length nonce). -/
theorem decrypt_invalid_nonce_size (secret : String) (bytes : List Nat)
    (pw : String) (env : EncryptedData) (hu : unmarshalEnv bytes = some env)
    (hn : env.Nonce.length ≠ gcmNonceSize) :
    DecryptCredential secret bytes pw = .error .invalidNonceSize := by
  rw [DecryptCredential, hu]
  simp [DecryptCredentialEnv, hn]

/-- Witness for C10 at a concrete envelope with an empty nonce. -/
theorem decrypt_invalid_nonce_size_witness :
    DecryptCredential "srv" (marshalEnv ⟨[], [], []⟩) "pw" =
      .error .invalidNonceSize :=
  decrypt_invalid_nonce_size "srv" (marshalEnv ⟨[], [], []⟩) "pw" ⟨[], [], []⟩
    (unmarshalEnv_marshalEnv ⟨[], [], []⟩) (by decide)

/-- C9: for every directory, `ListDirectory` returns exactly the
directory's entries (each carrying name, joined absolute path, size,
mode, mtime and is_dir), ordered directories-first and lexicographically
ascending by name within the directory group and within the file
group. -/
theorem list_directory_sorted (path : String) (entries : List DirEntry) :
    (ListDirectory path entries).Perm (entries.map (mkFileInfo path)) ∧
    (ListDirectory path entries).Pairwise (fun a b =>
      (a.IsDir = true ∧ b.IsDir = false) ∨ (a.IsDir = b.IsDir ∧ a.Name ≤ b.Name)) := by
  constructor
  · exact List.perm_insertionSort fileLe _
  · exact (List.sorted_insertionSort fileLe _).imp (fun h => (fileLe_iff _ _).mp h)

/-- C2: in every run of the bridge with host-key classification `new` or
`mismatch`, the session reaches `ShellActive` (shell started, `connected`
sent) only with a `host_key_confirm` carrying `accept == true` consumed
after the `host_key_verify` message (the three events occur in that order
in the trace); and whenever an `accept == false` confirmation is consumed,
the run ends in `Failed` with the remote SSH session closed. -/
theorem tofu_state_machine (env : BridgeEnv) (script : List Frame)
    (hclass : classify env.machine.HostKey env.net.observedFp = "new" ∨
      classify env.machine.HostKey env.net.observedFp = "mismatch") :
    (Ev.shellStarted ∈ (SSHWebSocket env script).1 →
      [Ev.sent "host_key_verify", Ev.confirmReceived true, Ev.shellStarted].Sublist
        (SSHWebSocket env script).1) ∧
    (Ev.confirmReceived false ∈ (SSHWebSocket env script).1 →
      (SSHWebSocket env script).2 = .failed ∧
        Ev.sessionClosed ∈ (SSHWebSocket env script).1) := by
  rcases SSHWebSocket_cases env script with ⟨tr, heq, hev⟩ | ⟨rest, heq⟩
  · rw [heq]
    constructor
    · intro hmem
      have := hev _ hmem
      simp at this
    · intro hmem
      have := hev _ hmem
      simp at this
  · rw [heq]
    constructor
    · intro hmem
      simp only [withPre] at hmem ⊢
      have hmem2 : Ev.shellStarted ∈ (hostKeyPhase env
          ⟨env.net.observedFp, classify env.machine.HostKey env.net.observedFp⟩
          rest).1 := by
        rcases List.mem_append.mp hmem with h | h
        · simp at h
        · exact h
      have hsub := hostKeyPhase_shellStarted env _ rest hclass hmem2
      exact List.Sublist.cons _ hsub
    · intro hmem
      simp only [withPre] at hmem ⊢
      have hmem2 : Ev.confirmReceived false ∈ (hostKeyPhase env
          ⟨env.net.observedFp, classify env.machine.HostKey env.net.observedFp⟩
          rest).1 := by
        rcases List.mem_append.mp hmem with h | h
        · simp at h
        · exact h
      have hrj := hostKeyPhase_reject env _ rest hmem2
      exact ⟨hrj.1, List.mem_append_right _ hrj.2⟩

/-- Witness for C2 at a concrete environment (stored fingerprint empty,
so classification is `new`) and a script that authenticates and accepts
the host key. -/
theorem tofu_state_machine_witness :
    (Ev.shellStarted ∈ (SSHWebSocket bridgeWitnessEnv
        [Frame.auth "pw", Frame.hostKeyConfirm true]).1 →
      [Ev.sent "host_key_verify", Ev.confirmReceived true, Ev.shellStarted].Sublist
        (SSHWebSocket bridgeWitnessEnv [Frame.auth "pw", Frame.hostKeyConfirm true]).1) ∧
    (Ev.confirmReceived false ∈ (SSHWebSocket bridgeWitnessEnv
        [Frame.auth "pw", Frame.hostKeyConfirm true]).1 →
      (SSHWebSocket bridgeWitnessEnv [Frame.auth "pw", Frame.hostKeyConfirm true]).2 =
        .failed ∧
      Ev.sessionClosed ∈ (SSHWebSocket bridgeWitnessEnv
        [Frame.auth "pw", Frame.hostKeyConfirm true]).1) :=
  tofu_state_machine bridgeWitnessEnv [Frame.auth "pw", Frame.hostKeyConfirm true]
    (Or.inl rfl)

/-- C6: the stored host fingerprint is written only on an accepted
confirmation: without a consumed `accept == true` the machine record is
unchanged; every ledger write carries exactly the observed fingerprint
and is preceded by an accepted confirmation in the same run; on an
accepted confirmation the stored value is overwritten with the observed
fingerprint; and no other field of the machine record is ever written. -/
theorem ledger_written_only_on_accept (env : BridgeEnv) (script : List Frame) :
    (Ev.confirmReceived true ∉ (SSHWebSocket env script).1 →
      applyLedger env.machine (SSHWebSocket env script).1 = env.machine) ∧
    (∀ fp, Ev.dbUpdateHostKey fp ∈ (SSHWebSocket env script).1 →
      fp = env.net.observedFp ∧
        Ev.confirmReceived true ∈ (SSHWebSocket env script).1) ∧
    (Ev.confirmReceived true ∈ (SSHWebSocket env script).1 →
      (applyLedger env.machine (SSHWebSocket env script).1).HostKey =
        env.net.observedFp) ∧
    (∀ m0 : Machine, (applyLedger m0 (SSHWebSocket env script).1).Name = m0.Name ∧
      (applyLedger m0 (SSHWebSocket env script).1).Hostname = m0.Hostname ∧
      (applyLedger m0 (SSHWebSocket env script).1).Port = m0.Port ∧
      (applyLedger m0 (SSHWebSocket env script).1).Username = m0.Username ∧
      (applyLedger m0 (SSHWebSocket env script).1).CredentialEncrypted =
        m0.CredentialEncrypted) := by
  refine ⟨?_, ?_, ?_, fun m0 => applyLedger_preserves _ m0⟩
  all_goals
    rcases SSHWebSocket_cases env script with ⟨tr, heq, hev⟩ | ⟨rest, heq⟩
  · rw [heq]
    intro _
    rw [applyLedger_filter, ledgerWrites_nil_of]
    · rfl
    · intro fp hf
      have := hev _ hf
      simp at this
  · rw [heq]
    simp only [withPre]
    intro hnc
    rcases hostKeyPhase_writes env
        ⟨env.net.observedFp, classify env.machine.HostKey env.net.observedFp⟩
        rest with ⟨_, hwr⟩ | ⟨hc, _⟩
    · rw [applyLedger_filter, ledgerWrites_nil_of]
      · rfl
      · intro fp hf
        rcases List.mem_append.mp hf with h | h
        · simp at h
        · have h2 : Ev.dbUpdateHostKey fp ∈ ledgerWrites (hostKeyPhase env
              ⟨env.net.observedFp, classify env.machine.HostKey env.net.observedFp⟩
              rest).1 := by
            rw [ledgerWrites]
            exact List.mem_filter.mpr ⟨h, by simp [isLedgerWrite]⟩
          rw [hwr] at h2
          simp at h2
    · exact absurd (List.mem_append_right _ hc) hnc
  · rw [heq]
    intro fp hf
    have := hev _ hf
    simp at this
  · rw [heq]
    simp only [withPre]
    intro fp hf
    have hf2 : Ev.dbUpdateHostKey fp ∈ (hostKeyPhase env
        ⟨env.net.observedFp, classify env.machine.HostKey env.net.observedFp⟩
        rest).1 := by
      rcases List.mem_append.mp hf with h | h
      · simp at h
      · exact h
    have hmf : Ev.dbUpdateHostKey fp ∈ ledgerWrites (hostKeyPhase env
        ⟨env.net.observedFp, classify env.machine.HostKey env.net.observedFp⟩
        rest).1 := by
      rw [ledgerWrites]
      exact List.mem_filter.mpr ⟨hf2, by simp [isLedgerWrite]⟩
    rcases hostKeyPhase_writes env
        ⟨env.net.observedFp, classify env.machine.HostKey env.net.observedFp⟩
        rest with ⟨_, hwr⟩ | ⟨hc, hwr⟩
    · rw [hwr] at hmf
      simp at hmf
    · rw [hwr] at hmf
      simp only [List.mem_singleton] at hmf
      exact ⟨(Ev.dbUpdateHostKey.inj hmf), List.mem_append_right _ hc⟩
  · rw [heq]
    intro hc
    exact absurd hc (by
      intro h
      have := hev _ h
      simp at this)
  · rw [heq]
    simp only [withPre]
    intro hc
    rcases hostKeyPhase_writes env
        ⟨env.net.observedFp, classify env.machine.HostKey env.net.observedFp⟩
        rest with ⟨hnc, _⟩ | ⟨_, hwr⟩
    · exfalso
      rcases List.mem_append.mp hc with h | h
      · simp at h
      · exact hnc h
    · rw [applyLedger_filter]
      have hlw : ledgerWrites (Ev.sent "ready" :: (hostKeyPhase env
          ⟨env.net.observedFp, classify env.machine.HostKey env.net.observedFp⟩
          rest).1) = [Ev.dbUpdateHostKey env.net.observedFp] := by
        rw [ledgerWrites, List.filter_cons]
        simp only [isLedgerWrite]
        rw [← ledgerWrites, hwr]
        simp
      rw [List.singleton_append, hlw]
      rfl

/-- Witness for C6 at the concrete `new`-classification environment with
an accepting script. -/
theorem ledger_written_only_on_accept_witness :
    (Ev.confirmReceived true ∉ (SSHWebSocket bridgeWitnessEnv
        [Frame.auth "pw", Frame.hostKeyConfirm true]).1 →
      applyLedger bridgeWitnessEnv.machine (SSHWebSocket bridgeWitnessEnv
        [Frame.auth "pw", Frame.hostKeyConfirm true]).1 = bridgeWitnessEnv.machine) ∧
    (∀ fp, Ev.dbUpdateHostKey fp ∈ (SSHWebSocket bridgeWitnessEnv
        [Frame.auth "pw", Frame.hostKeyConfirm true]).1 →
      fp = bridgeWitnessEnv.net.observedFp ∧
        Ev.confirmReceived true ∈ (SSHWebSocket bridgeWitnessEnv
          [Frame.auth "pw", Frame.hostKeyConfirm true]).1) ∧
    (Ev.confirmReceived true ∈ (SSHWebSocket bridgeWitnessEnv
        [Frame.auth "pw", Frame.hostKeyConfirm true]).1 →
      (applyLedger bridgeWitnessEnv.machine (SSHWebSocket bridgeWitnessEnv
        [Frame.auth "pw", Frame.hostKeyConfirm true]).1).HostKey =
        bridgeWitnessEnv.net.observedFp) ∧
    (∀ m0 : Machine, (applyLedger m0 (SSHWebSocket bridgeWitnessEnv
        [Frame.auth "pw", Frame.hostKeyConfirm true]).1).Name = m0.Name ∧
      (applyLedger m0 (SSHWebSocket bridgeWitnessEnv
        [Frame.auth "pw", Frame.hostKeyConfirm true]).1).Hostname = m0.Hostname ∧
      (applyLedger m0 (SSHWebSocket bridgeWitnessEnv
        [Frame.auth "pw", Frame.hostKeyConfirm true]).1).Port = m0.Port ∧
      (applyLedger m0 (SSHWebSocket bridgeWitnessEnv
        [Frame.auth "pw", Frame.hostKeyConfirm true]).1).Username = m0.Username ∧
      (applyLedger m0 (SSHWebSocket bridgeWitnessEnv
        [Frame.auth "pw", Frame.hostKeyConfirm true]).1).CredentialEncrypted =
        m0.CredentialEncrypted) :=
  ledger_written_only_on_accept bridgeWitnessEnv
    [Frame.auth "pw", Frame.hostKeyConfirm true]

/-- C8 counterexample: the claim says a message of unknown type is
ignored and never fatal at every state of the bridge's receive handling,
but during the auth wait an unknown-type message terminates the run with
`Expected auth message`: with the same healthy environment, the script
starting with an unknown-type frame fails while the script without it
completes normally. -/
theorem unknown_type_fatal_counterexample :
    (SSHWebSocket bridgeMatchEnv [Frame.other "bogus", Frame.auth "pw"]).2 =
      .failed ∧
    (SSHWebSocket bridgeMatchEnv [Frame.auth "pw"]).2 = .closed := by
  constructor
  · rfl
  · rfl

/-- C8 (amended): an unknown-type message is ignored and non-fatal only
in the `ShellActive` receive loop; during the auth wait and the host-key
confirmation wait, any message whose type is not the one expected there
(unknown types included) terminates the session with an error. -/
theorem unknown_type_ignored_only_in_loop (env : BridgeEnv) (t : String)
    (rest : List Frame) (hk : HostKeyResult)
    (ht : t ∉ ["ready", "auth", "connected", "host_key_verify",
      "host_key_confirm", "input", "output", "resize", "ping", "pong", "error"])
    (hst : hk.Status = "new" ∨ hk.Status = "mismatch")
    (hmid : env.machineIDOk = true) (huid : env.userIDOk = true) :
    wsReadLoop env (Frame.other t :: rest) = wsReadLoop env rest ∧
    (SSHWebSocket env (Frame.other t :: rest)).2 = .failed ∧
    (hostKeyPhase env hk (Frame.other t :: rest)).2 = .failed := by
  refine ⟨by simp [wsReadLoop], ?_, ?_⟩
  · rw [SSHWebSocket.eq_def]
    simp [hmid, huid, withPre, errTrace]
  · rw [hostKeyPhase.eq_def, if_pos hst]
    simp [withPre, errTrace]

/-- Witness for C8 (amended) at a concrete unknown type and
environment. -/
theorem unknown_type_ignored_only_in_loop_witness :
    wsReadLoop bridgeMatchEnv [Frame.other "bogus"] = wsReadLoop bridgeMatchEnv [] ∧
    (SSHWebSocket bridgeMatchEnv [Frame.other "bogus"]).2 = .failed ∧
    (hostKeyPhase bridgeMatchEnv ⟨"SHA256:abc", "new"⟩ [Frame.other "bogus"]).2 =
      .failed :=
  unknown_type_ignored_only_in_loop bridgeMatchEnv "bogus" [] ⟨"SHA256:abc", "new"⟩
    (by decide) (Or.inl rfl) rfl rfl

end Farseer
